import Mathlib

set_option maxRecDepth 8000

/-!
Verification of the Gopher protocol layer of the proxy70 gateway
(`src/gopher.rs`, with the rate limiter modelled from the specification).

Strings are embedded as `List Char`, raw wire bytes as `List Nat`
(each byte a natural number below 256).  Fallible operations return
`Option` / `Except`; the one reachable panic in the source
(`parse().unwrap()` on the port capture of `GopherURL::try_from`) is made
explicit as a distinguished result constructor.
-/

/-! ## GopherItem (`src/gopher.rs`, `enum GopherItem` and its two char maps) -/

inductive GopherItem where
  | TextFile | Submenu | Nameserver | Error | BinHex | Dos | UuencodeFile
  | FullTextSearch | Telnet | BinaryFile | Mirror | GifFile | ImageFile
  | Telnet3270 | BitmapFile | MovieFile | SoundFile | DocFile | HtmlFile
  | Info | PngFile | RtfFile | WavFile | PdfFile | XmlFile | Unknown
  deriving DecidableEq, Repr

/-- Embeds `impl From<char> for GopherItem` (match on the wire character,
anything unrecognized maps to `Unknown`). -/
def gopherItemFromChar (c : Char) : GopherItem :=
  match c with
  | '0' => .TextFile
  | '1' => .Submenu
  | '2' => .Nameserver
  | '3' => .Error
  | '4' => .BinHex
  | '5' => .Dos
  | '6' => .UuencodeFile
  | '7' => .FullTextSearch
  | '8' => .Telnet
  | '9' => .BinaryFile
  | '+' => .Mirror
  | 'g' => .GifFile
  | 'I' => .ImageFile
  | 'T' => .Telnet3270
  | ':' => .BitmapFile
  | ';' => .MovieFile
  | '<' => .SoundFile
  | 'd' => .DocFile
  | 'h' => .HtmlFile
  | 'i' => .Info
  | 'p' => .PngFile
  | 'r' => .RtfFile
  | 's' => .WavFile
  | 'P' => .PdfFile
  | 'X' => .XmlFile
  | _ => .Unknown

/-- Embeds `impl Into<char> for GopherItem`. -/
def gopherItemToChar (t : GopherItem) : Char :=
  match t with
  | .TextFile => '0'
  | .Submenu => '1'
  | .Nameserver => '2'
  | .Error => '3'
  | .BinHex => '4'
  | .Dos => '5'
  | .UuencodeFile => '6'
  | .FullTextSearch => '7'
  | .Telnet => '8'
  | .BinaryFile => '9'
  | .Mirror => '+'
  | .GifFile => 'g'
  | .ImageFile => 'I'
  | .Telnet3270 => 'T'
  | .BitmapFile => ':'
  | .MovieFile => ';'
  | .SoundFile => '<'
  | .DocFile => 'd'
  | .HtmlFile => 'h'
  | .Info => 'i'
  | .PngFile => 'p'
  | .RtfFile => 'r'
  | .WavFile => 's'
  | .PdfFile => 'P'
  | .XmlFile => 'X'
  | .Unknown => '?'

/-- The 25 wire characters that map to a non-`Unknown` item type. -/
def wireChars : List Char :=
  ['0', '1', '2', '3', '4', '5', '6', '7', '8', '9',
   '+', 'g', 'I', 'T', ':', ';', '<', 'd', 'h', 'i', 'p', 'r', 's', 'P', 'X']

/-! ## Decimal digits and Rust's `u16::from_str` -/

/-- ASCII decimal digit test (`0`–`9`). -/
def isDigitChar (c : Char) : Bool :=
  '0' ≤ c && c ≤ '9'

/-- Numeric value of a digit string read left to right. -/
def parseDigitsVal (s : List Char) : Nat :=
  s.foldl (fun a c => 10 * a + (c.toNat - 48)) 0

/-- Embeds Rust's `str::parse::<u16>`: an optional leading `+`, then a
nonempty run of ASCII digits whose value fits in 16 bits; anything else
(including overflow) is a parse error. -/
def parseU16 (s : List Char) : Option Nat :=
  let t := match s with
    | c :: r => if c = '+' then r else c :: r
    | [] => []
  if t = [] then none
  else if t.all isDigitChar then
    let v := parseDigitsVal t
    if v ≤ 65535 then some v else none
  else none

/-! ## GopherURL and DirEntry data model -/

/-- Embeds `struct GopherURL { host, port, gopher_type, selector }`.
The Rust `port` field is a `u16`; here it is a `Nat` (theorems that need
the machine bound state `port < 65536` explicitly). -/
structure GopherURL where
  host : List Char
  port : Nat
  gopher_type : GopherItem
  selector : List Char
  deriving DecidableEq, Repr

/-- Embeds `GopherURL::new`: the port string is parsed with
`parse().unwrap_or(70)`. -/
def gopherURLNew (host : List Char) (port : List Char) (item_type : GopherItem)
    (selector : List Char) : GopherURL :=
  { host := host
    port := (parseU16 port).getD 70
    gopher_type := item_type
    selector := selector }

/-- Embeds `struct DirEntry { item_type, label, url }`. -/
structure DirEntry where
  item_type : GopherItem
  label : List Char
  url : Option GopherURL
  deriving DecidableEq, Repr

/-- Embeds the `_INVALID_ENTRY` sentinel constant. -/
def invalidEntry : DirEntry :=
  { item_type := .Unknown, label := [], url := none }

/-- Embeds `DirEntry::new`: `Info` entries carry no URL, every other type
gets a URL built by `GopherURL::new`. -/
def dirEntryNew (item_type : GopherItem) (label selector host port : List Char) :
    DirEntry :=
  match item_type with
  | .Info => { item_type := item_type, label := label, url := none }
  | _ =>
    { item_type := item_type
      label := label
      url := some (gopherURLNew host port item_type selector) }

/-- Splitting a character list on a separator, as Rust's `str::split`
does: `n` separators always yield `n + 1` (possibly empty) pieces. -/
def splitOnChar (sep : Char) : List Char → List (List Char)
  | [] => [[]]
  | c :: rest =>
    match splitOnChar sep rest with
    | [] => [[]]
    | p :: ps => if c = sep then [] :: p :: ps else (c :: p) :: ps

/-- Embeds `impl From<&str> for DirEntry`: take the first four
tab-separated fields; a missing field or an empty first field produces the
`_INVALID_ENTRY` sentinel, otherwise the first character of the first
field is the item type and the rest of it the label. -/
def dirEntryFrom (line : List Char) : DirEntry :=
  match splitOnChar '\t' line with
  | itemLabel :: selector :: host :: port :: _ =>
    match itemLabel with
    | [] => invalidEntry
    | c :: label => dirEntryNew (gopherItemFromChar c) label selector host port
  | _ => invalidEntry

/-! ## Menu assembly (`Menu::from_url` loop over the response lines) -/

/-- Strips one trailing carriage return, as `BufReadExt::lines` does after
removing the newline. -/
def stripCR (l : List Char) : List Char :=
  if l.getLast? = some '\r' then l.dropLast else l

/-- Embeds the `lines()` adapter of the response stream: split on `'\n'`,
strip the trailing `'\r'` of every newline-terminated line, and do not
yield a final empty piece after a terminating newline (a last line with no
newline is yielded as is, carriage return included). -/
def linesOf (s : List Char) : List (List Char) :=
  match (splitOnChar '\n' s).reverse with
  | [] => []
  | last :: revInit =>
    revInit.reverse.map stripCR ++ (if last = [] then [] else [last])

/-- Embeds the accumulation loop of `Menu::from_url`.  The accumulator
holds the already-assembled entries in reverse order, so the Rust
`items.last_mut()` is the head of `acc`.  A line equal to `"."` stops the
loop; `Unknown` entries are skipped; an `Info` entry is merged into the
previous entry when that entry is itself `Info`. -/
def menuAssemble : List (List Char) → List DirEntry → List DirEntry
  | [], acc => acc.reverse
  | l :: rest, acc =>
    if l = ['.'] then acc.reverse
    else
      let e := dirEntryFrom l
      if e.item_type = .Unknown then menuAssemble rest acc
      else if e.item_type = .Info then
        match acc with
        | prev :: tl =>
          if prev.item_type = .Info then
            menuAssemble rest ({ prev with label := prev.label ++ '\n' :: e.label } :: tl)
          else menuAssemble rest (e :: prev :: tl)
        | [] => menuAssemble rest [e]
      else menuAssemble rest (e :: acc)

/-- The `Menu` built by `Menu::from_url` from a list of response lines. -/
def menuFromLines (ls : List (List Char)) : List DirEntry :=
  menuAssemble ls []

/-- The `Menu` built from a raw character stream (line splitting followed
by the assembly loop). -/
def menuFromStream (s : List Char) : List DirEntry :=
  menuFromLines (linesOf s)

/-! ## UTF-8 decoding (Rust's `String::from_utf8` over the peeked bytes) -/

/-- UTF-8 continuation byte test (`0x80`–`0xBF`). -/
def isCont (b : Nat) : Prop :=
  128 ≤ b ∧ b ≤ 191

instance (b : Nat) : Decidable (isCont b) := by
  unfold isCont
  infer_instance

/-- Admissible first continuation byte of a three-byte sequence (excludes
overlong encodings for `0xE0` and surrogates for `0xED`). -/
def utf8Cont2Ok (b b1 : Nat) : Prop :=
  if b = 224 then 160 ≤ b1 ∧ b1 ≤ 191
  else if b = 237 then 128 ≤ b1 ∧ b1 ≤ 159
  else isCont b1

instance (b b1 : Nat) : Decidable (utf8Cont2Ok b b1) := by
  unfold utf8Cont2Ok
  infer_instance

/-- Admissible first continuation byte of a four-byte sequence (excludes
overlong encodings for `0xF0` and values above `U+10FFFF` for `0xF4`). -/
def utf8Cont3Ok (b b1 : Nat) : Prop :=
  if b = 240 then 144 ≤ b1 ∧ b1 ≤ 191
  else if b = 244 then 128 ≤ b1 ∧ b1 ≤ 143
  else isCont b1

instance (b b1 : Nat) : Decidable (utf8Cont3Ok b b1) := by
  unfold utf8Cont3Ok
  infer_instance

/-- Decodes one UTF-8 scalar from the head of a byte list, returning the
character and the remaining bytes; `none` on empty input or any invalid
leading sequence (bad leading byte, bad or missing continuation byte,
overlong form, surrogate, out-of-range scalar). -/
def utf8Step (l : List Nat) : Option (Char × List Nat) :=
  match l with
  | [] => none
  | b :: bs =>
    if b ≤ 127 then some (Char.ofNat b, bs)
    else if 194 ≤ b ∧ b ≤ 223 then
      match bs with
      | b1 :: bs1 =>
        if isCont b1 then some (Char.ofNat ((b - 192) * 64 + (b1 - 128)), bs1) else none
      | [] => none
    else if 224 ≤ b ∧ b ≤ 239 then
      match bs with
      | b1 :: b2 :: bs2 =>
        if utf8Cont2Ok b b1 ∧ isCont b2 then
          some (Char.ofNat ((b - 224) * 4096 + (b1 - 128) * 64 + (b2 - 128)), bs2)
        else none
      | _ => none
    else if 240 ≤ b ∧ b ≤ 244 then
      match bs with
      | b1 :: b2 :: b3 :: bs3 =>
        if utf8Cont3Ok b b1 ∧ isCont b2 ∧ isCont b3 then
          some (Char.ofNat ((b - 240) * 262144 + (b1 - 128) * 4096 + (b2 - 128) * 64 + (b3 - 128)),
                bs3)
        else none
      | _ => none
    else none

/-- Iterates `utf8Step` with an explicit fuel; every step consumes at
least one byte, so a fuel of the input length always suffices (the
`0, _ :: _` arm is unreachable from `utf8Decode`). -/
def utf8DecodeGo : Nat → List Nat → Option (List Char)
  | _, [] => some []
  | 0, _ :: _ => none
  | fuel + 1, b :: bs =>
    match utf8Step (b :: bs) with
    | some cr => (utf8DecodeGo fuel cr.2).map (fun cs => cr.1 :: cs)
    | none => none

/-- Strict UTF-8 decoding of a byte list, as Rust's `String::from_utf8`:
`none` exactly on invalid input. -/
def utf8Decode (l : List Nat) : Option (List Char) :=
  utf8DecodeGo l.length l

/-! ## The fetch-side error sniffing of `fetch_url` -/

/-- Embeds the response-peeking part of `fetch_url`: a 256-byte buffer is
zero-initialized, `read` fills its first `n` bytes, the whole buffer is
decoded as UTF-8 and parsed as a directory entry; an `Error`-typed entry
aborts the fetch with that entry's label, anything else exposes the peeked
bytes chained back in front of the rest of the stream. -/
def fetchPeek (resp : List Nat) (n : Nat) : Except (List Char) (List Nat) :=
  let header := resp.take n ++ List.replicate (256 - n) 0
  match utf8Decode header with
  | some s =>
    let e := dirEntryFrom s
    if e.item_type = .Error then .error e.label
    else .ok (resp.take n ++ resp.drop n)
  | none => .ok (resp.take n ++ resp.drop n)

/-! ## Request encoding of `fetch_url` (the bytes written to the socket) -/

/-- Value of an ASCII hex digit byte, if any. -/
def hexDigitVal (b : Nat) : Option Nat :=
  if 48 ≤ b && b ≤ 57 then some (b - 48)
  else if 65 ≤ b && b ≤ 70 then some (b - 55)
  else if 97 ≤ b && b ≤ 102 then some (b - 87)
  else none

/-- Embeds the `urlencoding` crate's percent decoding over bytes: a `%`
followed by two hex digits becomes the encoded byte, any other `%` is kept
literally and scanning resumes at the next byte. -/
def percentDecodeBytes : List Nat → List Nat
  | [] => []
  | b :: b1 :: b2 :: rest =>
    if b = 37 then
      match hexDigitVal b1, hexDigitVal b2 with
      | some h, some l => (16 * h + l) :: percentDecodeBytes rest
      | _, _ => 37 :: percentDecodeBytes (b1 :: b2 :: rest)
    else b :: percentDecodeBytes (b1 :: b2 :: rest)
  | b :: rest =>
    if b = 37 then 37 :: percentDecodeBytes rest else b :: percentDecodeBytes rest

/-- Embeds `urlencoding::decode`: percent-decode the bytes, then require
the result to be valid UTF-8 (Rust returns the decoded string, here the
decoded bytes). -/
def rustUrlDecode (bs : List Nat) : Option (List Nat) :=
  let d := percentDecodeBytes bs
  if (utf8Decode d).isSome then some d else none

/-- The request message `fetch_url` formats before any decoding:
`selector\r\n`, or `selector\tquery\r\n` when a query is supplied. -/
def requestMsg (selector : List Nat) (query : Option (List Nat)) : List Nat :=
  match query with
  | some q => selector ++ 9 :: q ++ [13, 10]
  | none => selector ++ [13, 10]

/-- Embeds the bytes `fetch_url` writes to the TCP stream: the formatted
message is passed through `urlencoding::decode` twice before being
written.  `none` covers both failure paths (a UTF-8 error of the first
decode is returned as an error, one of the second panics on `unwrap`);
in neither case is a request written. -/
def requestBytes (selector : List Nat) (query : Option (List Nat)) :
    Option (List Nat) :=
  match rustUrlDecode (requestMsg selector query) with
  | none => none
  | some s1 => rustUrlDecode s1

/-! ## GopherURL parsing (`TryFrom<&str>`, the anchored-at-end regex
`(?:gopher://)?(?P<host>[^:/]+)(?::(?P<port>\d+))?(?:/(?P<type>[A-z0-9:+:;<?])(?P<selector>.*))?$`
with leftmost-first match semantics; `\d` is modelled as the ASCII digits,
the only digits the claims exercise) -/

/-- Ordered choice on `Option` (the backtracking priority of the regex). -/
def oOr (a b : Option α) : Option α :=
  match a with
  | some x => some x
  | none => b

/-- The capture groups of a successful match of the URL regex. -/
structure UrlCaps where
  host : List Char
  portCap : Option (List Char)
  typeCap : Option Char
  selCap : Option (List Char)
  deriving DecidableEq, Repr

/-- Characters admitted by the host group `[^:/]+`. -/
def isHostChar (c : Char) : Bool :=
  !(c = ':' || c = '/')

/-- Characters admitted by the type-character class `[A-z0-9:+:;<?]`
(the `A-z` range also covers the six ASCII characters between `Z` and `a`). -/
def isTypeClassChar (c : Char) : Bool :=
  ('A' ≤ c && c ≤ 'z') || isDigitChar c || c = ':' || c = '+' || c = ';' || c = '<' || c = '?'

/-- Greedy backtracking order for a nonempty repetition that matched up to
`n` characters: try the longest first, down to one. -/
def countdown : Nat → List Nat
  | 0 => []
  | n + 1 => (n + 1) :: countdown n

/-- Matches the optional tail group `(?:/(?P<type>.)(?P<selector>.*))?`
followed by the end anchor `$`.  The group succeeds on `/`, a class
character, and a remainder free of newlines (`.*` cannot cross `'\n'` and
`$` only matches at the very end); otherwise the group is skipped and the
anchor requires the input to be exhausted. -/
def matchTail (rest : List Char) : Option (Option Char × Option (List Char)) :=
  oOr
    (match rest with
     | '/' :: c :: sel =>
       if isTypeClassChar c && !sel.contains '\n' then some (some c, some sel) else none
     | _ => none)
    (if rest = [] then some (none, none) else none)

/-- Matches the optional port group `(?::(?P<port>\d+))?` (greedy, with
backtracking over the length of the digit run) followed by the tail. -/
def matchPort (rest : List Char) :
    Option (Option (List Char) × Option Char × Option (List Char)) :=
  oOr
    (match rest with
     | ':' :: r =>
       let ds := r.takeWhile isDigitChar
       (countdown ds.length).findSome? fun j =>
         (matchTail (r.drop j)).map fun ts => (some (r.take j), ts.1, ts.2)
     | _ => none)
    ((matchTail rest).map fun ts => (none, ts.1, ts.2))

/-- Matches `(?P<host>[^:/]+)` (greedy with backtracking) followed by the
port and tail groups. -/
def matchHost (cs : List Char) : Option UrlCaps :=
  let run := cs.takeWhile isHostChar
  (countdown run.length).findSome? fun k =>
    (matchPort (cs.drop k)).map fun pts =>
      { host := cs.take k, portCap := pts.1, typeCap := pts.2.1, selCap := pts.2.2 }

/-- The scheme literal `gopher://`. -/
def schemeCs : List Char :=
  ['g', 'o', 'p', 'h', 'e', 'r', ':', '/', '/']

/-- Attempts the whole regex at one position: the optional scheme literal
is consumed greedily first, falling back to matching the host directly. -/
def matchAt (cs : List Char) : Option UrlCaps :=
  oOr (if cs.take 9 = schemeCs then matchHost (cs.drop 9) else none) (matchHost cs)

/-- The unanchored search of `Regex::captures`: the match at the leftmost
starting position wins. -/
def findMatch : List Char → Option UrlCaps
  | [] => matchAt []
  | cs@(_ :: rest) => oOr (matchAt cs) (findMatch rest)

/-- Result of `GopherURL::try_from`: a parsed URL, the reported
`failed to parse URL` error, or the panic of the unguarded
`parse().unwrap()` on an oversized port capture. -/
inductive ParseResult where
  | ok (u : GopherURL)
  | err
  | panic
  deriving DecidableEq, Repr

/-- Embeds `impl TryFrom<&str> for GopherURL`: run the regex, then build
the struct: port capture parsed with `parse().unwrap()` (a `u16` overflow
panics), missing port defaults to 70, missing type group defaults to
`Submenu`, missing selector group defaults to the empty string. -/
def gopherURLTryFrom (s : List Char) : ParseResult :=
  match findMatch s with
  | none => .err
  | some caps =>
    match caps.portCap with
    | some p =>
      match parseU16 p with
      | none => .panic
      | some v =>
        .ok { host := caps.host, port := v,
              gopher_type := (caps.typeCap.map gopherItemFromChar).getD .Submenu,
              selector := caps.selCap.getD [] }
    | none =>
      .ok { host := caps.host, port := 70,
            gopher_type := (caps.typeCap.map gopherItemFromChar).getD .Submenu,
            selector := caps.selCap.getD [] }

/-! ## Canonical serialization (`impl Display for GopherURL`) -/

/-- Decimal digit character of a value below ten. -/
def digitChar (d : Nat) : Char :=
  match d with
  | 0 => '0' | 1 => '1' | 2 => '2' | 3 => '3' | 4 => '4'
  | 5 => '5' | 6 => '6' | 7 => '7' | 8 => '8' | _ => '9'

/-- Decimal representation of a natural number (most significant digit
first), as Rust's `Display` for integers. -/
def natToChars (n : Nat) : List Char :=
  if h : n < 10 then [digitChar n]
  else natToChars (n / 10) ++ [digitChar (n % 10)]
  decreasing_by exact Nat.div_lt_self (Nat.lt_of_lt_of_le (by decide) (Nat.le_of_not_lt h)) (by decide)

/-- Embeds `impl Display for GopherURL`: `gopher://host:port` when the
selector is empty, `gopher://host:port/<type-char><selector>` otherwise. -/
def displayURL (u : GopherURL) : List Char :=
  schemeCs ++ u.host ++ ':' :: natToChars u.port ++
    (if u.selector = [] then []
     else '/' :: gopherItemToChar u.gopher_type :: u.selector)

/-! ## Rate limiter -/

/-- Modelled from the spec: the repository sources under `src/` contain no
rate limiter (only the specification describes it, §3 and §4.4), so the
per-address fixed-window counter is modelled from the spec's words: a map
from source address to a request counter. -/
structure RateLimiter where
  windowSecs : Nat
  maxRate : Nat
  counters : Nat → Nat

/-- Modelled from the spec: `allow` increments the address's counter and
compares the post-increment rate `count / window_seconds` against the
ceiling; the request is allowed exactly when the rate does not exceed it
(`count ≤ maxRate * windowSecs`), and the counter is kept either way. -/
def rlAllow (rl : RateLimiter) (addr : Nat) : Bool × RateLimiter :=
  let c := rl.counters addr + 1
  (decide (c ≤ rl.maxRate * rl.windowSecs),
   { rl with counters := fun a => if a = addr then c else rl.counters a })

/-- Modelled from the spec: the background task clears every per-address
counter once per window. -/
def rlReset (rl : RateLimiter) : RateLimiter :=
  { rl with counters := fun _ => 0 }

/-- Decisions and final state of `k` consecutive `allow` calls from one
source address. -/
def rlAllowTimes (rl : RateLimiter) (addr : Nat) : Nat → List Bool × RateLimiter
  | 0 => ([], rl)
  | k + 1 =>
    let br := rlAllow rl addr
    let rest := rlAllowTimes br.2 addr k
    (br.1 :: rest.1, rest.2)

/-! ## Small helper lemmas -/

theorem splitOnChar_ne_nil (sep : Char) (l : List Char) : splitOnChar sep l ≠ [] := by
  cases l with
  | nil => simp [splitOnChar]
  | cons c rest =>
    simp only [splitOnChar]
    match h : splitOnChar sep rest with
    | [] => simp
    | p :: ps =>
      by_cases hc : c = sep <;> simp [hc]

theorem dirEntryNew_item_type (t : GopherItem) (label sel host port : List Char) :
    (dirEntryNew t label sel host port).item_type = t := by
  cases t <;> rfl

theorem dirEntryNew_label (t : GopherItem) (label sel host port : List Char) :
    (dirEntryNew t label sel host port).label = label := by
  cases t <;> rfl

/-! ## C7: item-type character round trip -/

/-- C7: for every `GopherItem` variant `v` other than `Unknown`, decoding
the character that `v` encodes to yields `v` again; `Unknown` encodes to
`'?'`, `'?'` decodes to `Unknown`, and every character outside the 25
mapped wire characters decodes to `Unknown`. -/
theorem item_char_roundtrip :
    (∀ v : GopherItem, v ≠ .Unknown → gopherItemFromChar (gopherItemToChar v) = v) ∧
    gopherItemToChar .Unknown = '?' ∧
    gopherItemFromChar '?' = .Unknown ∧
    (∀ c : Char, c ∉ wireChars → gopherItemFromChar c = .Unknown) := by
  refine ⟨?_, rfl, by decide, ?_⟩
  · intro v _hv
    cases v <;> decide
  · intro c hc
    unfold gopherItemFromChar
    split <;> simp_all [wireChars]

theorem item_char_roundtrip_witness :
    gopherItemFromChar (gopherItemToChar .TextFile) = .TextFile ∧
    gopherItemFromChar 'z' = .Unknown :=
  ⟨item_char_roundtrip.1 .TextFile (by decide),
   item_char_roundtrip.2.2.2 'z' (by decide)⟩

/-! ## C8: malformed directory-entry lines degrade to the sentinel -/

/-- C8: a line with fewer than four tab-separated fields, or whose first
field is empty, parses to the `_INVALID_ENTRY` sentinel (`Unknown` type,
empty label, no URL); `dirEntryFrom` is total, so no error is ever raised
to the menu-assembly caller. -/
theorem direntry_invalid_sentinel (line : List Char)
    (h : (splitOnChar '\t' line).length < 4 ∨ (splitOnChar '\t' line).head? = some []) :
    dirEntryFrom line = invalidEntry := by
  unfold dirEntryFrom
  match hs : splitOnChar '\t' line with
  | [] => rfl
  | [f0] =>
    rcases h with h | h
    · rfl
    · rfl
  | [f0, f1] => rfl
  | [f0, f1, f2] => rfl
  | f0 :: f1 :: f2 :: f3 :: rest =>
    rcases h with h | h
    · rw [hs] at h
      simp at h
      omega
    · rw [hs] at h
      simp at h
      rw [h]

theorem direntry_invalid_sentinel_witness :
    dirEntryFrom ("no tabs in this line".toList) = invalidEntry :=
  direntry_invalid_sentinel _ (Or.inl (by decide))

/-! ## C10: unparseable port fields -/

/-- C10 counterexample: the line `"\t/sel\thost\tbad"` has four
tab-separated fields and a port field that does not parse as a `u16`, yet
`dirEntryFrom` produces the invalid sentinel (no URL at all, not a URL
with port 70), because its first field is empty. -/
theorem direntry_port_cex :
    (splitOnChar '\t' ("\t/sel\thost\tbad".toList)).length = 4 ∧
    parseU16 ("bad".toList) = none ∧
    dirEntryFrom ("\t/sel\thost\tbad".toList) = invalidEntry ∧
    invalidEntry.url = none ∧
    invalidEntry.item_type = .Unknown := by
  refine ⟨by decide, by decide, by decide, rfl, rfl⟩

/-- C10 amended: for every directory-entry line with at least four
tab-separated fields, a nonempty first field whose type character is not
`'i'` (`Info`), and a port field that does not parse as a 16-bit unsigned
integer, parsing succeeds and silently substitutes port 70 in the
constructed URL. -/
theorem direntry_port_amended (line f0 sel host port : List Char)
    (rest : List (List Char)) (c : Char) (lbl : List Char)
    (hsplit : splitOnChar '\t' line = f0 :: sel :: host :: port :: rest)
    (hf0 : f0 = c :: lbl)
    (hInfo : gopherItemFromChar c ≠ .Info)
    (hport : parseU16 port = none) :
    dirEntryFrom line =
      { item_type := gopherItemFromChar c
        label := lbl
        url := some { host := host, port := 70,
                      gopher_type := gopherItemFromChar c, selector := sel } } := by
  subst hf0
  unfold dirEntryFrom
  rw [hsplit]
  show dirEntryNew (gopherItemFromChar c) lbl sel host port = _
  unfold dirEntryNew gopherURLNew
  cases h : gopherItemFromChar c <;> simp_all [hport]

theorem direntry_port_amended_witness :
    dirEntryFrom ("1x\t/s\th\t99999".toList) =
      { item_type := .Submenu
        label := ['x']
        url := some { host := ['h'], port := 70,
                      gopher_type := .Submenu, selector := ['/', 's'] } } :=
  direntry_port_amended ("1x\t/s\th\t99999".toList) ("1x".toList) ['/', 's'] ['h']
    ("99999".toList) [] '1' ['x'] (by decide) (by decide) (by decide) (by decide)

/-! ## C6: URL parsing can panic on an oversized port -/

/-- C6 (code bug): `GopherURL::try_from` reaches the unguarded
`parse().unwrap()` on the input `gopher://example.com:99999`: the regex
matches with port capture `99999`, which overflows `u16`, so the code
panics instead of reporting an error. -/
theorem url_parse_port_panic :
    gopherURLTryFrom ("gopher://example.com:99999".toList) = .panic := by decide

/-! ## C3: the spec's example menu stream -/

/-- C3 counterexample: the stream
`"iLine one\r\niLine two\r\n1Folder\t/sel\thost\t70\r\n.\r\n"` does not
assemble into two entries (an `Info` and a `Submenu`): it assembles into a
single `Submenu` entry, because the tab-less info lines parse as the
invalid sentinel and are skipped. -/
theorem menu_stream_cex :
    (menuFromStream ("iLine one\r\niLine two\r\n1Folder\t/sel\thost\t70\r\n.\r\n".toList)).length = 1 ∧
    (menuFromStream ("iLine one\r\niLine two\r\n1Folder\t/sel\thost\t70\r\n.\r\n".toList)).map
        DirEntry.item_type = [.Submenu] := by
  exact ⟨by decide, by decide⟩

/-- C3 amended: menu assembly applied to the line stream
`"iLine one\r\niLine two\r\n1Folder\t/sel\thost\t70\r\n.\r\n"` produces
exactly one entry, the `Submenu` entry labeled `Folder` (selector `/sel`,
host `host`, port 70); the two info lines carry no tab-separated fields,
so they parse as the `Unknown` sentinel and are dropped. -/
theorem menu_stream_amended :
    menuFromStream ("iLine one\r\niLine two\r\n1Folder\t/sel\thost\t70\r\n.\r\n".toList) =
      [{ item_type := .Submenu
         label := "Folder".toList
         url := some { host := "host".toList, port := 70,
                       gopher_type := .Submenu, selector := "/sel".toList } }] := by
  decide

/-! ## C5: the rate-limiter window (modelled from the spec) -/

/-- C5: with a ceiling of 1 request/second over a 10-second window, every
source address that issues 11 requests within one window has exactly its
11th request rejected, and after the background window reset the same
source's next request is accepted. -/
theorem rate_limiter_window (addr : Nat) :
    (rlAllowTimes { windowSecs := 10, maxRate := 1, counters := fun _ => 0 } addr 11).1 =
      List.replicate 10 true ++ [false] ∧
    (rlAllow (rlReset
        (rlAllowTimes { windowSecs := 10, maxRate := 1, counters := fun _ => 0 } addr 11).2)
      addr).1 = true := by
  constructor <;>
    simp [rlAllowTimes, rlAllow, rlReset, List.replicate]

theorem rate_limiter_window_witness :
    (rlAllowTimes { windowSecs := 10, maxRate := 1, counters := fun _ => 0 } 7 11).1 =
      List.replicate 10 true ++ [false] ∧
    (rlAllow (rlReset
        (rlAllowTimes { windowSecs := 10, maxRate := 1, counters := fun _ => 0 } 7 11).2)
      7).1 = true :=
  rate_limiter_window 7

/-! ## C9: invariants of menu assembly -/

/-- Adjacent-entry predicate: not both entries are `Info`. -/
def noTwoInfo (a b : DirEntry) : Prop :=
  ¬(a.item_type = .Info ∧ b.item_type = .Info)

theorem menuAssemble_inv (ls : List (List Char)) :
    ∀ acc : List DirEntry,
      (∀ e ∈ acc, e.item_type ≠ .Unknown) →
      List.Chain' noTwoInfo acc →
      (∀ e ∈ menuAssemble ls acc, e.item_type ≠ .Unknown) ∧
      List.Chain' noTwoInfo (menuAssemble ls acc) := by
  induction ls with
  | nil =>
    intro acc h1 h2
    refine ⟨?_, ?_⟩
    · intro e he
      exact h1 e (List.mem_reverse.mp he)
    · exact List.chain'_reverse.mpr (h2.imp fun a b hab hp => hab ⟨hp.2, hp.1⟩)
  | cons l rest ih =>
    intro acc h1 h2
    by_cases hdot : l = ['.']
    · simp only [menuAssemble, if_pos hdot]
      refine ⟨?_, ?_⟩
      · intro e he
        exact h1 e (List.mem_reverse.mp he)
      · exact List.chain'_reverse.mpr (h2.imp fun a b hab hp => hab ⟨hp.2, hp.1⟩)
    · by_cases hu : (dirEntryFrom l).item_type = .Unknown
      · simp only [menuAssemble, if_neg hdot, if_pos hu]
        exact ih acc h1 h2
      · by_cases hi : (dirEntryFrom l).item_type = .Info
        · match acc with
          | [] =>
            simp only [menuAssemble, if_neg hdot, if_neg hu, if_pos hi]
            refine ih _ ?_ ?_
            · intro e he
              simp at he
              rw [he, hi]
              decide
            · simp
          | prev :: tl =>
            by_cases hp : prev.item_type = .Info
            · simp only [menuAssemble, if_neg hdot, if_neg hu, if_pos hi, if_pos hp]
              refine ih _ ?_ ?_
              · intro e he
                rcases List.mem_cons.mp he with he | he
                · rw [he]
                  exact h1 prev (List.mem_cons_self _ _)
                · exact h1 e (List.mem_cons_of_mem _ he)
              · cases tl with
                | nil => simp
                | cons b tl2 =>
                  rcases List.chain'_cons.mp h2 with ⟨hpb, hrest⟩
                  exact List.chain'_cons.mpr ⟨hpb, hrest⟩
            · simp only [menuAssemble, if_neg hdot, if_neg hu, if_pos hi, if_neg hp]
              refine ih _ ?_ ?_
              · intro e he
                rcases List.mem_cons.mp he with he | he
                · rw [he, hi]; decide
                · exact h1 e he
              · exact List.chain'_cons.mpr ⟨fun ⟨_, hpI⟩ => hp hpI, h2⟩
        · simp only [menuAssemble, if_neg hdot, if_neg hu, if_neg hi]
          refine ih _ ?_ ?_
          · intro e he
            rcases List.mem_cons.mp he with he | he
            · rw [he]; exact hu
            · exact h1 e he
          · cases acc with
            | nil => simp
            | cons prev tl =>
              exact List.chain'_cons.mpr ⟨fun ⟨heI, _⟩ => hi heI, h2⟩

theorem menuAssemble_stop (ls : List (List Char)) :
    ∀ acc : List DirEntry,
      menuAssemble ls acc =
        menuAssemble (ls.takeWhile fun l => l ≠ ['.']) acc := by
  induction ls with
  | nil => intro acc; rfl
  | cons l rest ih =>
    intro acc
    by_cases hdot : l = ['.']
    · simp only [List.takeWhile_cons, hdot]
      simp [menuAssemble]
    · have htw : (l :: rest).takeWhile (fun l => decide (l ≠ ['.'])) =
        l :: rest.takeWhile (fun l => decide (l ≠ ['.'])) := by
        simp [List.takeWhile_cons, hdot]
      rw [htw]
      by_cases hu : (dirEntryFrom l).item_type = .Unknown
      · simp only [menuAssemble, if_neg hdot, if_pos hu]
        exact ih acc
      · by_cases hi : (dirEntryFrom l).item_type = .Info
        · match acc with
          | [] =>
            simp only [menuAssemble, if_neg hdot, if_neg hu, if_pos hi]
            exact ih _
          | prev :: tl =>
            by_cases hp : prev.item_type = .Info
            · simp only [menuAssemble, if_neg hdot, if_neg hu, if_pos hi, if_pos hp]
              exact ih _
            · simp only [menuAssemble, if_neg hdot, if_neg hu, if_pos hi, if_neg hp]
              exact ih _
        · simp only [menuAssemble, if_neg hdot, if_neg hu, if_neg hi]
          exact ih _

/-- C9: for every input line stream, the assembled menu contains no
`Unknown` entry and no two consecutive `Info` entries (consecutive info
lines having been merged into their predecessor), and assembly stops at
the first line equal to `"."` (the menu equals the one assembled from the
lines before the first terminator). -/
theorem menu_invariants (ls : List (List Char)) :
    (∀ e ∈ menuFromLines ls, e.item_type ≠ .Unknown) ∧
    List.Chain' noTwoInfo (menuFromLines ls) ∧
    menuFromLines ls = menuFromLines (ls.takeWhile fun l => l ≠ ['.']) := by
  refine ⟨(menuAssemble_inv ls [] (by simp) (by simp)).1,
          (menuAssemble_inv ls [] (by simp) (by simp)).2, ?_⟩
  exact menuAssemble_stop ls []

theorem menu_invariants_witness :
    ({ item_type := .Submenu, label := ['A'],
       url := some { host := ['h'], port := 70,
                     gopher_type := .Submenu, selector := ['/', 's'] } } : DirEntry).item_type
      ≠ .Unknown ∧
    menuFromLines ["1A\t/s\th\t70".toList, ".".toList, "1B\t/s\th\t70".toList] =
      menuFromLines (["1A\t/s\th\t70".toList, ".".toList, "1B\t/s\th\t70".toList].takeWhile
        fun l => l ≠ ['.']) :=
  ⟨(menu_invariants ["1A\t/s\th\t70".toList]).1 _ (by decide),
   (menu_invariants ["1A\t/s\th\t70".toList, ".".toList, "1B\t/s\th\t70".toList]).2.2⟩

/-! ## C4: the request bytes written by `fetch_url` -/

/-- C4 counterexample: for the selector `%41` (bytes `37, 52, 49`) and no
query, `fetch_url` writes `A\r\n` (bytes `65, 13, 10`) — the selector is
percent-decoded (twice) before being written, not taken verbatim. -/
theorem request_bytes_cex :
    requestBytes [37, 52, 49] none = some [65, 13, 10] ∧
    requestMsg [37, 52, 49] none = [37, 52, 49, 13, 10] ∧
    some [65, 13, 10] ≠ some [37, 52, 49, 13, 10] := by
  exact ⟨by decide, by decide, by decide⟩

theorem percentDecodeBytes_id (bs : List Nat) (h : 37 ∉ bs) :
    percentDecodeBytes bs = bs := by
  induction bs using percentDecodeBytes.induct with
  | case1 => rfl
  | case2 b1 b2 rest hh hl ih =>
    exact absurd (List.mem_cons_self _ _) h
  | case3 b1 b2 rest hno ih =>
    exact absurd (List.mem_cons_self _ _) h
  | case4 b b1 b2 rest hb ih =>
    simp only [percentDecodeBytes, if_neg hb]
    rw [ih fun hm => h (List.mem_cons_of_mem _ hm)]
  | case5 rest hshape ih =>
    exact absurd (List.mem_cons_self _ _) h
  | case6 b rest hshape hb ih =>
    have heq : percentDecodeBytes (b :: rest) = b :: percentDecodeBytes rest := by
      match rest, hshape with
      | [], _ => simp [percentDecodeBytes, if_neg hb]
      | [b1], _ => simp [percentDecodeBytes, if_neg hb]
      | b1 :: b2 :: r, hsh => exact (hsh b1 b2 r rfl).elim
    rw [heq, ih fun hm => h (List.mem_cons_of_mem _ hm)]

/-- C4 amended: the request bytes written to the TCP connection are the
result of applying `urlencoding::decode` twice to the formatted message
`selector\r\n` (or `selector\tquery\r\n`); in particular, whenever the
selector and query contain no `%` byte (and the message is valid UTF-8, as
every Rust string is), the bytes written are exactly the selector taken
verbatim followed by `\r\n`, or selector, tab, query, `\r\n`. -/
theorem request_bytes_amended (sel : List Nat) (q : Option (List Nat))
    (hsel : 37 ∉ sel)
    (hq : ∀ qs, q = some qs → 37 ∉ qs)
    (hvalid : (utf8Decode (requestMsg sel q)).isSome) :
    requestBytes sel q = some (requestMsg sel q) := by
  have hmsg : 37 ∉ requestMsg sel q := by
    cases q with
    | none =>
      intro hm
      simp [requestMsg] at hm
      exact hsel hm
    | some qs =>
      intro hm
      simp [requestMsg] at hm
      rcases hm with hm | hm
      · exact hsel hm
      · exact hq qs rfl hm
  have hid : percentDecodeBytes (requestMsg sel q) = requestMsg sel q :=
    percentDecodeBytes_id _ hmsg
  have hdec : rustUrlDecode (requestMsg sel q) = some (requestMsg sel q) := by
    unfold rustUrlDecode
    rw [hid, if_pos hvalid]
  unfold requestBytes
  rw [hdec]
  exact hdec

theorem request_bytes_amended_witness :
    requestBytes [47, 102, 111, 111] (some [97, 98]) =
      some [47, 102, 111, 111, 9, 97, 98, 13, 10] := by
  have h := request_bytes_amended [47, 102, 111, 111] (some [97, 98])
    (by decide) (by intro qs hqs; cases hqs; decide) (by decide)
  simpa using h


/-! ## C1: the error-sniffing peek of `fetch_url` -/

theorem utf8DecodeGo_nil (fuel : Nat) : utf8DecodeGo fuel [] = some [] := by
  cases fuel <;> rfl

theorem utf8Step_shrinks (l : List Nat) (cr : Char × List Nat)
    (h : utf8Step l = some cr) : cr.2.length < l.length := by
  match l with
  | [] => simp [utf8Step] at h
  | b :: bs =>
    simp only [utf8Step] at h
    split_ifs at h with h1 h2 h3 h4
    · cases h
      simp
    · split at h
      · split_ifs at h
        cases h
        simp
        omega
      · exact absurd h (by simp)
    · split at h
      · split_ifs at h
        cases h
        simp
        omega
      · exact absurd h (by simp)
    · split at h
      · split_ifs at h
        cases h
        simp
        omega
      · exact absurd h (by simp)

theorem utf8DecodeGo_mono (f1 : Nat) :
    ∀ (l : List Nat) (f2 : Nat), l.length ≤ f1 → l.length ≤ f2 →
      utf8DecodeGo f1 l = utf8DecodeGo f2 l := by
  induction f1 with
  | zero =>
    intro l f2 h1 h2
    have hl : l = [] := List.eq_nil_of_length_eq_zero (Nat.le_zero.mp h1)
    subst hl
    rw [utf8DecodeGo_nil, utf8DecodeGo_nil]
  | succ f ih =>
    intro l f2 h1 h2
    match l with
    | [] => rw [utf8DecodeGo_nil, utf8DecodeGo_nil]
    | b :: bs =>
      match f2 with
      | 0 => exact absurd h2 (by simp)
      | f2 + 1 =>
        simp only [utf8DecodeGo]
        cases hstep : utf8Step (b :: bs) with
        | none => rfl
        | some cr =>
          have hlt := utf8Step_shrinks _ _ hstep
          simp only [List.length_cons] at h1 h2 hlt
          show (utf8DecodeGo f cr.2).map (fun cs => cr.1 :: cs) =
            (utf8DecodeGo f2 cr.2).map (fun cs => cr.1 :: cs)
          rw [ih cr.2 f2 (by omega) (by omega)]

theorem utf8Decode_step (b : Nat) (bs : List Nat) :
    utf8Decode (b :: bs) =
      match utf8Step (b :: bs) with
      | some cr => (utf8Decode cr.2).map (fun cs => cr.1 :: cs)
      | none => none := by
  unfold utf8Decode
  simp only [List.length_cons, utf8DecodeGo]
  cases hstep : utf8Step (b :: bs) with
  | none => rfl
  | some cr =>
    have hlt := utf8Step_shrinks _ _ hstep
    simp only [List.length_cons] at hlt
    show (utf8DecodeGo bs.length cr.2).map (fun cs => cr.1 :: cs) =
      (utf8Decode cr.2).map (fun cs => cr.1 :: cs)
    unfold utf8Decode
    rw [utf8DecodeGo_mono bs.length cr.2 cr.2.length (by omega) (by omega)]

theorem utf8Decode_replicate_zero (k : Nat) :
    utf8Decode (List.replicate k 0) = some (List.replicate k (Char.ofNat 0)) := by
  induction k with
  | zero => rfl
  | succ k ih =>
    rw [List.replicate_succ, utf8Decode_step]
    have hstep : utf8Step (0 :: List.replicate k 0) =
        some (Char.ofNat 0, List.replicate k 0) := by
      simp [utf8Step]
    rw [hstep]
    show (utf8Decode (List.replicate k 0)).map _ = _
    rw [ih]
    simp [List.replicate_succ]

theorem utf8Step_append_zeros (b : Nat) (bs : List Nat) (k : Nat) :
    utf8Step ((b :: bs) ++ List.replicate k 0) =
      (utf8Step (b :: bs)).map (fun cr => (cr.1, cr.2 ++ List.replicate k 0)) := by
  have hk0 : ∀ j, List.replicate (j + 1) 0 = 0 :: List.replicate j 0 := fun j =>
    List.replicate_succ 0 j
  have hnc : ¬ isCont 0 := by decide
  simp only [List.cons_append, utf8Step]
  by_cases h1 : b ≤ 127
  · simp [if_pos h1]
  · simp only [if_neg h1]
    by_cases h2 : 194 ≤ b ∧ b ≤ 223
    · simp only [if_pos h2]
      match bs with
      | b1 :: bs1 =>
        simp only [List.cons_append]
        by_cases hc : isCont b1
        · simp [if_pos hc]
        · simp [if_neg hc]
      | [] =>
        match k with
        | 0 => simp
        | k + 1 =>
          simp only [List.nil_append, hk0 k]
          rw [if_neg hnc]
          simp
    · simp only [if_neg h2]
      by_cases h3 : 224 ≤ b ∧ b ≤ 239
      · simp only [if_pos h3]
        match bs with
        | b1 :: b2 :: bs2 =>
          simp only [List.cons_append]
          by_cases hc : utf8Cont2Ok b b1 ∧ isCont b2
          · simp [if_pos hc]
          · simp [if_neg hc]
        | [] =>
          match k with
          | 0 => simp
          | 1 => simp [hk0 0]
          | k + 2 =>
            simp only [List.nil_append, hk0 (k + 1), hk0 k, List.cons_append]
            rw [if_neg fun hand => hnc hand.2]
            simp
        | [b1] =>
          match k with
          | 0 => simp
          | k + 1 =>
            simp only [List.cons_append, List.nil_append, hk0 k]
            rw [if_neg fun hand => hnc hand.2]
            simp
      · simp only [if_neg h3]
        by_cases h4 : 240 ≤ b ∧ b ≤ 244
        · simp only [if_pos h4]
          match bs with
          | b1 :: b2 :: b3 :: bs3 =>
            simp only [List.cons_append]
            by_cases hc : utf8Cont3Ok b b1 ∧ isCont b2 ∧ isCont b3
            · simp [if_pos hc]
            · simp [if_neg hc]
          | [] =>
            match k with
            | 0 => simp
            | 1 => simp [hk0 0]
            | 2 => simp [hk0 1, hk0 0]
            | k + 3 =>
              simp only [List.nil_append, hk0 (k + 2), hk0 (k + 1), hk0 k, List.cons_append]
              rw [if_neg fun hand => hnc hand.2.1]
              simp
          | [b1] =>
            match k with
            | 0 => simp
            | 1 => simp [hk0 0]
            | k + 2 =>
              simp only [List.cons_append, List.nil_append, hk0 (k + 1), hk0 k]
              rw [if_neg fun hand => hnc hand.2.1]
              simp
          | [b1, b2] =>
            match k with
            | 0 => simp
            | k + 1 =>
              simp only [List.cons_append, List.nil_append, hk0 k]
              rw [if_neg fun hand => hnc hand.2.2]
              simp
        · simp [if_neg h4]

theorem utf8Decode_append_zeros (xs : List Nat) (k : Nat) :
    utf8Decode (xs ++ List.replicate k 0) =
      (utf8Decode xs).map (fun cs => cs ++ List.replicate k (Char.ofNat 0)) := by
  have main : ∀ (n : Nat) (xs : List Nat), xs.length ≤ n →
      utf8Decode (xs ++ List.replicate k 0) =
        (utf8Decode xs).map (fun cs => cs ++ List.replicate k (Char.ofNat 0)) := by
    intro n
    induction n with
    | zero =>
      intro xs hlen
      have hx : xs = [] := List.eq_nil_of_length_eq_zero (Nat.le_zero.mp hlen)
      subst hx
      rw [List.nil_append, utf8Decode_replicate_zero]
      rfl
    | succ n ih =>
      intro xs hlen
      match xs with
      | [] =>
        rw [List.nil_append, utf8Decode_replicate_zero]
        rfl
      | b :: bs =>
        rw [List.cons_append, utf8Decode_step, ← List.cons_append,
          utf8Step_append_zeros, utf8Decode_step]
        cases hstep : utf8Step (b :: bs) with
        | none => rfl
        | some cr =>
          have hlt := utf8Step_shrinks _ _ hstep
          simp only [List.length_cons] at hlt hlen
          show (utf8Decode (cr.2 ++ List.replicate k 0)).map (fun cs => cr.1 :: cs) =
            ((utf8Decode cr.2).map (fun cs => cr.1 :: cs)).map
              (fun cs => cs ++ List.replicate k (Char.ofNat 0))
          rw [ih cr.2 (by omega)]
          cases utf8Decode cr.2 <;> simp
  exact main xs.length xs (Nat.le_refl _)

/-- Appends a suffix to the last piece of a split result. -/
def appendLast (ys : List Char) : List (List Char) → List (List Char)
  | [] => [ys]
  | [p] => [p ++ ys]
  | p :: q :: ps => p :: appendLast ys (q :: ps)

theorem splitOnChar_no_sep (sep : Char) (ys : List Char)
    (h : ∀ y ∈ ys, y ≠ sep) : splitOnChar sep ys = [ys] := by
  induction ys with
  | nil => rfl
  | cons y ys ih =>
    have hy : y ≠ sep := h y (List.mem_cons_self _ _)
    have hys := ih fun z hz => h z (List.mem_cons_of_mem _ hz)
    simp only [splitOnChar, hys, if_neg hy]

theorem splitOnChar_append (sep : Char) (xs ys : List Char)
    (h : ∀ y ∈ ys, y ≠ sep) :
    splitOnChar sep (xs ++ ys) = appendLast ys (splitOnChar sep xs) := by
  induction xs with
  | nil =>
    rw [List.nil_append, splitOnChar_no_sep sep ys h]
    rfl
  | cons c xs ih =>
    rw [List.cons_append]
    simp only [splitOnChar, ih]
    match hs : splitOnChar sep xs with
    | [] => exact absurd hs (splitOnChar_ne_nil sep xs)
    | [p] =>
      by_cases hc : c = sep <;> simp [hc, appendLast]
    | p :: q :: ps =>
      by_cases hc : c = sep <;> simp [hc, appendLast]

theorem appendLast_length (ys : List Char) (l : List (List Char)) (h : l ≠ []) :
    (appendLast ys l).length = l.length := by
  match l with
  | [] => exact absurd rfl h
  | [p] => rfl
  | p :: q :: ps =>
    simp only [appendLast, List.length_cons]
    rw [appendLast_length ys (q :: ps) (by simp)]
    simp

/-- Appending characters that contain no tab to a line changes neither the
item type nor the label of its parsed directory entry: the padding lands
entirely in the last tab-separated field, and the type and label come from
the first field. -/
theorem dirEntryFrom_append_no_tab (s pad : List Char)
    (hpad : ∀ y ∈ pad, y ≠ '\t') :
    (dirEntryFrom (s ++ pad)).item_type = (dirEntryFrom s).item_type ∧
    (dirEntryFrom (s ++ pad)).label = (dirEntryFrom s).label := by
  unfold dirEntryFrom
  rw [splitOnChar_append '\t' s pad hpad]
  match hs : splitOnChar '\t' s with
  | [] => exact absurd hs (splitOnChar_ne_nil _ _)
  | [f0] => exact ⟨rfl, rfl⟩
  | [f0, f1] => exact ⟨rfl, rfl⟩
  | [f0, f1, f2] => exact ⟨rfl, rfl⟩
  | f0 :: f1 :: f2 :: f3 :: rest =>
    have hexp : appendLast pad (f0 :: f1 :: f2 :: f3 :: rest) =
        f0 :: f1 :: f2 :: appendLast pad (f3 :: rest) := rfl
    rw [hexp]
    cases hal : appendLast pad (f3 :: rest) with
    | nil => exact absurd hal (by cases rest <;> simp [appendLast])
    | cons g3 grest =>
      cases f0 with
      | nil => exact ⟨rfl, rfl⟩
      | cons c lbl =>
        constructor
        · show (dirEntryNew (gopherItemFromChar c) lbl f1 f2 g3).item_type =
            (dirEntryNew (gopherItemFromChar c) lbl f1 f2 f3).item_type
          rw [dirEntryNew_item_type, dirEntryNew_item_type]
        · show (dirEntryNew (gopherItemFromChar c) lbl f1 f2 g3).label =
            (dirEntryNew (gopherItemFromChar c) lbl f1 f2 f3).label
          rw [dirEntryNew_label, dirEntryNew_label]

/-- C1: for every fetched response and every partial read of `n` bytes
into the 256-byte peek buffer: if the peeked prefix parses (as UTF-8, then
as a directory entry) to an `Error`-typed entry, the fetch fails with that
entry's label and exposes no stream; for every other response (well-formed
non-`Error` first line, malformed line, or invalid UTF-8) the stream
handed to the caller is exactly the original response bytes, the peeked
prefix prepended back unmodified.  (The zero padding of the peek buffer
changes neither the parsed item type nor the label, which the proof routes
through `dirEntryFrom_append_no_tab` and `utf8Decode_append_zeros`.) -/
theorem fetch_error_sniffing (resp : List Nat) (n : Nat)
    (hn : n ≤ 256) (hlen : n ≤ resp.length) :
    (∀ s, utf8Decode (resp.take n) = some s →
      (dirEntryFrom s).item_type = .Error →
      fetchPeek resp n = .error (dirEntryFrom s).label) ∧
    ((∀ s, utf8Decode (resp.take n) = some s → (dirEntryFrom s).item_type ≠ .Error) →
      fetchPeek resp n = .ok resp) := by
  have hpadbytes : utf8Decode (resp.take n ++ List.replicate (256 - n) 0) =
      (utf8Decode (resp.take n)).map
        (fun cs => cs ++ List.replicate (256 - n) (Char.ofNat 0)) :=
    utf8Decode_append_zeros _ _
  have hnul : ∀ y ∈ List.replicate (256 - n) (Char.ofNat 0), y ≠ '\t' := by
    intro y hy
    rw [List.eq_of_mem_replicate hy]
    decide
  constructor
  · intro s hdec herr
    have hbridge := dirEntryFrom_append_no_tab s _ hnul
    simp only [fetchPeek]
    rw [hpadbytes, hdec]
    show (if (dirEntryFrom (s ++ List.replicate (256 - n) (Char.ofNat 0))).item_type = .Error
          then Except.error (dirEntryFrom (s ++ List.replicate (256 - n) (Char.ofNat 0))).label
          else Except.ok (resp.take n ++ resp.drop n)) = Except.error (dirEntryFrom s).label
    rw [hbridge.1, hbridge.2, if_pos herr]
  · intro hno
    simp only [fetchPeek]
    cases hdec : utf8Decode (resp.take n) with
    | none =>
      rw [hpadbytes, hdec]
      show Except.ok (resp.take n ++ resp.drop n) = Except.ok resp
      rw [List.take_append_drop]
    | some s =>
      have hbridge := dirEntryFrom_append_no_tab s _ hnul
      rw [hpadbytes, hdec]
      show (if (dirEntryFrom (s ++ List.replicate (256 - n) (Char.ofNat 0))).item_type = .Error
            then Except.error (dirEntryFrom (s ++ List.replicate (256 - n) (Char.ofNat 0))).label
            else Except.ok (resp.take n ++ resp.drop n)) = Except.ok resp
      rw [hbridge.1, if_neg (hno s hdec), List.take_append_drop]

theorem fetch_error_sniffing_witness :
    fetchPeek [51, 111, 111, 112, 115, 9, 97, 9, 98, 9, 55, 48, 13, 10] 14 =
      .error ("oops".toList) := by
  have h := (fetch_error_sniffing [51, 111, 111, 112, 115, 9, 97, 9, 98, 9, 55, 48, 13, 10] 14
      (by decide) (by decide)).1 ("3oops\ta\tb\t70\r\n".toList) (by decide) (by decide)
  have h2 : (dirEntryFrom ("3oops\ta\tb\t70\r\n".toList)).label = "oops".toList := by decide
  rw [h2] at h
  exact h

/-! ## C2: round-tripping the canonical serialization -/

theorem digitChar_isDigit (d : Nat) (h : d < 10) : isDigitChar (digitChar d) = true := by
  interval_cases d <;> decide

theorem digitChar_toNat (d : Nat) (h : d < 10) : (digitChar d).toNat = 48 + d := by
  interval_cases d <;> decide

theorem natToChars_ne_nil (n : Nat) : natToChars n ≠ [] := by
  unfold natToChars
  split_ifs with h
  · simp
  · simp

theorem natToChars_digits (n : Nat) : ∀ c ∈ natToChars n, isDigitChar c = true := by
  induction n using natToChars.induct with
  | case1 n h =>
    intro c hc
    unfold natToChars at hc
    rw [dif_pos h] at hc
    simp at hc
    rw [hc]
    exact digitChar_isDigit n h
  | case2 n h ih =>
    intro c hc
    unfold natToChars at hc
    rw [dif_neg h] at hc
    rcases List.mem_append.mp hc with hc | hc
    · exact ih c hc
    · simp at hc
      rw [hc]
      exact digitChar_isDigit _ (Nat.mod_lt _ (by decide))

theorem parseDigitsVal_append_digit (s : List Char) (c : Char) :
    parseDigitsVal (s ++ [c]) = 10 * parseDigitsVal s + (c.toNat - 48) := by
  unfold parseDigitsVal
  rw [List.foldl_append]
  rfl

theorem parseDigitsVal_natToChars (n : Nat) : parseDigitsVal (natToChars n) = n := by
  induction n using natToChars.induct with
  | case1 n h =>
    unfold natToChars
    rw [dif_pos h]
    show parseDigitsVal [digitChar n] = n
    unfold parseDigitsVal
    simp [digitChar_toNat n h]
  | case2 n h ih =>
    unfold natToChars
    rw [dif_neg h]
    rw [parseDigitsVal_append_digit, ih, digitChar_toNat _ (Nat.mod_lt _ (by decide))]
    omega

theorem parseU16_of_digits (s : List Char) (hne : s ≠ [])
    (hdig : ∀ c ∈ s, isDigitChar c = true) (hle : parseDigitsVal s ≤ 65535) :
    parseU16 s = some (parseDigitsVal s) := by
  match s with
  | [] => exact absurd rfl hne
  | c :: r =>
    have hc : c ≠ '+' := by
      intro hplus
      have := hdig c (List.mem_cons_self _ _)
      rw [hplus] at this
      exact absurd this (by decide)
    show parseU16 (c :: r) = _
    unfold parseU16
    simp only [if_neg hc]
    rw [if_neg (by simp), if_pos (by exact List.all_eq_true.mpr hdig), if_pos hle]

theorem takeWhile_append_of_all (p : Char → Bool) (xs ys : List Char)
    (h : ∀ x ∈ xs, p x = true) :
    (xs ++ ys).takeWhile p = xs ++ ys.takeWhile p := by
  induction xs with
  | nil => simp
  | cons x xs ih =>
    have hx : p x = true := h x (List.mem_cons_self _ _)
    simp only [List.cons_append, List.takeWhile_cons, hx]
    rw [ih fun z hz => h z (List.mem_cons_of_mem _ hz)]
    simp

theorem countdown_succ (n : Nat) : countdown (n + 1) = (n + 1) :: countdown n := rfl

theorem oOr_some (a : α) (b : Option α) : oOr (some a) b = some a := rfl

theorem gopherItem_char_id (t : GopherItem) :
    gopherItemFromChar (gopherItemToChar t) = t := by
  cases t <;> decide

theorem gopherItemToChar_in_class (t : GopherItem) :
    isTypeClassChar (gopherItemToChar t) = true := by
  cases t <;> decide

theorem matchTail_nil : matchTail [] = some (none, none) := rfl

theorem matchTail_sel (c : Char) (sel : List Char)
    (hc : isTypeClassChar c = true) (hn : sel.contains '\n' = false) :
    matchTail ('/' :: c :: sel) = some (some c, some sel) := by
  show oOr
      (if (isTypeClassChar c && !sel.contains '\n') = true then some (some c, some sel) else none)
      (if ('/' :: c :: sel : List Char) = [] then some (none, none) else none) =
    some (some c, some sel)
  rw [if_pos (show (isTypeClassChar c && !sel.contains '\n') = true by rw [hc, hn]; rfl)]
  rfl

theorem matchPort_eval (d : Char) (drest tail : List Char)
    (hdig : ∀ x ∈ d :: drest, isDigitChar x = true)
    (htail : tail = [] ∨ ∃ c t', tail = c :: t' ∧ isDigitChar c = false)
    (ts : Option Char × Option (List Char))
    (ht : matchTail tail = some ts) :
    matchPort (':' :: ((d :: drest) ++ tail)) =
      some (some (d :: drest), ts.1, ts.2) := by
  have hlen : (d :: drest).length = drest.length + 1 := by simp
  have htw : ((d :: drest) ++ tail).takeWhile isDigitChar = d :: drest := by
    rw [takeWhile_append_of_all isDigitChar (d :: drest) tail hdig]
    rcases htail with h | ⟨c, t', ht', hnd⟩
    · simp [h]
    · rw [ht', List.takeWhile_cons_of_neg (by simp [hnd])]
      simp
  simp only [matchPort]
  rw [htw, hlen, countdown_succ, List.findSome?_cons]
  rw [List.drop_left' hlen, List.take_left' hlen, ht]
  rfl

theorem matchHost_eval (hch : Char) (hrest rest : List Char)
    (hhost : ∀ x ∈ hch :: hrest, isHostChar x = true)
    (pts : Option (List Char) × Option Char × Option (List Char))
    (hp : matchPort (':' :: rest) = some pts) :
    matchHost ((hch :: hrest) ++ ':' :: rest) =
      some { host := hch :: hrest, portCap := pts.1, typeCap := pts.2.1, selCap := pts.2.2 } := by
  have hlen : (hch :: hrest).length = hrest.length + 1 := by simp
  have htw : ((hch :: hrest) ++ ':' :: rest).takeWhile isHostChar = hch :: hrest := by
    rw [takeWhile_append_of_all isHostChar (hch :: hrest) (':' :: rest) hhost]
    rw [List.takeWhile_cons_of_neg (by decide)]
    simp
  simp only [matchHost]
  rw [htw, hlen, countdown_succ, List.findSome?_cons]
  rw [List.drop_left' hlen, List.take_left' hlen, hp]
  rfl

theorem matchAt_scheme (rest : List Char) (caps : UrlCaps)
    (h : matchHost rest = some caps) :
    matchAt (schemeCs ++ rest) = some caps := by
  have h9 : schemeCs.length = 9 := rfl
  unfold matchAt
  rw [List.take_left' h9, List.drop_left' h9, if_pos rfl, h]
  rfl

theorem findMatch_of_matchAt (cs : List Char) (caps : UrlCaps)
    (h : matchAt cs = some caps) : findMatch cs = some caps := by
  cases cs with
  | nil => exact h
  | cons c rest =>
    unfold findMatch
    rw [h]
    rfl

/-- C2 counterexample: the `GopherURL` with host `example.com`, port 70,
item type `TextFile` and empty selector (which does not start with `URL:`)
serializes to `gopher://example.com:70`, and parsing that serialization
yields the default item type `Submenu`, not `TextFile` — `Display` drops
the type segment whenever the selector is empty. -/
theorem url_roundtrip_cex :
    gopherURLTryFrom (displayURL
        { host := "example.com".toList, port := 70,
          gopher_type := .TextFile, selector := [] }) =
      .ok { host := "example.com".toList, port := 70,
            gopher_type := .Submenu, selector := [] } ∧
    GopherItem.Submenu ≠ GopherItem.TextFile := by
  have h70 : natToChars 70 = ['7', '0'] := by
    unfold natToChars
    norm_num
    unfold natToChars
    norm_num
    decide
  have hdisp : displayURL
      { host := "example.com".toList, port := 70,
        gopher_type := .TextFile, selector := [] } =
      "gopher://example.com:70".toList := by
    unfold displayURL
    rw [h70]
    decide
  refine ⟨?_, by decide⟩
  rw [hdisp]
  decide

/-- C2 amended: for every `GopherURL` whose host is nonempty and free of
`:` and `/`, whose port fits in 16 bits, whose selector contains no
newline and does not start with `URL:`, and whose item type is `Submenu`
whenever the selector is empty (the serialization drops the type segment
in that case), parsing the canonical serialization succeeds and yields the
same host, port, item type and selector. -/
theorem url_roundtrip_amended (u : GopherURL)
    (hhost : u.host ≠ []) (hcolon : ':' ∉ u.host) (hslash : '/' ∉ u.host)
    (hport : u.port < 65536) (hnl : '\n' ∉ u.selector)
    (hurl : u.selector.take 4 ≠ "URL:".toList)
    (hsub : u.selector = [] → u.gopher_type = .Submenu) :
    gopherURLTryFrom (displayURL u) = .ok u := by
  obtain ⟨host, port, t, sel⟩ := u
  simp only at hhost hcolon hslash hport hnl hurl hsub
  match host, hhost with
  | hch :: hrest, _ =>
    have hhostchars : ∀ x ∈ hch :: hrest, isHostChar x = true := by
      intro x hx
      have hx1 : x ≠ ':' := fun he => hcolon (he ▸ hx)
      have hx2 : x ≠ '/' := fun he => hslash (he ▸ hx)
      simp [isHostChar, hx1, hx2]
    match hd : natToChars port with
    | [] => exact absurd hd (natToChars_ne_nil port)
    | d :: drest =>
      have hdig : ∀ x ∈ d :: drest, isDigitChar x = true := by
        rw [← hd]
        exact natToChars_digits port
      have hparse : parseU16 (d :: drest) = some port := by
        rw [← hd, parseU16_of_digits _ (natToChars_ne_nil port) (natToChars_digits port)
          (by rw [parseDigitsVal_natToChars]; omega), parseDigitsVal_natToChars]
      cases hselc : sel with
      | nil =>
        have hmp := matchPort_eval d drest [] hdig (Or.inl rfl) (none, none) matchTail_nil
        have hmh := matchHost_eval hch hrest ((d :: drest) ++ []) hhostchars _ hmp
        have hfm := findMatch_of_matchAt _ _ (matchAt_scheme _ _ hmh)
        have hdisp : displayURL ⟨hch :: hrest, port, t, []⟩ =
            schemeCs ++ ((hch :: hrest) ++ ':' :: ((d :: drest) ++ ([] : List Char))) := by
          unfold displayURL
          simp only [hd]
          simp
        unfold gopherURLTryFrom
        rw [hdisp, hfm]
        show (match parseU16 (d :: drest) with
              | none => ParseResult.panic
              | some v => ParseResult.ok ⟨hch :: hrest, v, .Submenu, []⟩) =
          ParseResult.ok ⟨hch :: hrest, port, t, []⟩
        rw [hparse, hsub hselc]
      | cons c0 s' =>
        have hcontains : (c0 :: s').contains '\n' = false := by
          rw [hselc] at hnl
          simpa using hnl
        have hmt := matchTail_sel (gopherItemToChar t) (c0 :: s')
          (gopherItemToChar_in_class t) hcontains
        have hmp := matchPort_eval d drest ('/' :: gopherItemToChar t :: (c0 :: s')) hdig
          (Or.inr ⟨'/', _, rfl, by decide⟩) _ hmt
        have hmh := matchHost_eval hch hrest
          ((d :: drest) ++ '/' :: gopherItemToChar t :: (c0 :: s')) hhostchars _ hmp
        have hfm := findMatch_of_matchAt _ _ (matchAt_scheme _ _ hmh)
        have hdisp : displayURL ⟨hch :: hrest, port, t, c0 :: s'⟩ =
            schemeCs ++ ((hch :: hrest) ++ ':' ::
              ((d :: drest) ++ '/' :: gopherItemToChar t :: (c0 :: s'))) := by
          unfold displayURL
          simp only [hd]
          rw [if_neg (by simp)]
          simp
        unfold gopherURLTryFrom
        rw [hdisp, hfm]
        show (match parseU16 (d :: drest) with
              | none => ParseResult.panic
              | some v => ParseResult.ok
                  ⟨hch :: hrest, v, gopherItemFromChar (gopherItemToChar t), c0 :: s'⟩) =
          ParseResult.ok ⟨hch :: hrest, port, t, c0 :: s'⟩
        rw [hparse, gopherItem_char_id]

theorem url_roundtrip_amended_witness :
    gopherURLTryFrom (displayURL
        { host := "example.com".toList, port := 70,
          gopher_type := .TextFile, selector := "/doc".toList }) =
      .ok { host := "example.com".toList, port := 70,
            gopher_type := .TextFile, selector := "/doc".toList } :=
  url_roundtrip_amended
    { host := "example.com".toList, port := 70,
      gopher_type := .TextFile, selector := "/doc".toList }
    (by decide) (by decide) (by decide) (by decide) (by decide) (by decide)
    (fun h => absurd h (by decide))
